import Mathlib

/-!
Verification development for the ITU-Intern meeting-processing service.

The definitions below are a shallow embedding of the repository's queue
manager (`app/queue_manager.py`, `app/models.py`) and of the speaker
diarization pipeline (`app/pipeline.py`).  Pure Python functions become
Lean functions; the SQL table of queue entries becomes a list of records;
external LLM calls become oracle parameters; machine floats used for
timestamps become rationals.
-/

namespace ITU

/-- One row of the `processing_queue` table (`models.py`, class
`ProcessingQueue`).  `priority` is an integer (higher = sooner), `queued_at`
is a timestamp modelled as a natural number, `status` is one of
`queued|processing|completed|failed`. -/
structure QueueEntry where
  id : Nat
  meeting_id : Nat
  priority : Int
  queued_at : Nat
  status : String
deriving DecidableEq, Repr

/-- `ProcessingQueue.position_in_queue` (`models.py` lines 86-103): returns 0
for a non-queued entry, otherwise one plus the number of rows matching
`status == 'queued' AND priority > self.priority AND queued_at < self.queued_at`
(the SQLAlchemy filter combines the three conditions conjunctively). -/
def position_in_queue (self : QueueEntry) (table : List QueueEntry) : Nat :=
  if self.status ≠ "queued" then 0
  else
    (table.filter (fun e =>
      e.status == "queued" &&
      decide (e.priority > self.priority) &&
      decide (e.queued_at < self.queued_at))).length + 1

/-- Modelled from the spec's words for comparison with `position_in_queue`:
one plus the count of OTHER queued jobs with strictly higher priority, or
equal priority and an earlier enqueue time. -/
def position_in_queue_spec (self : QueueEntry) (table : List QueueEntry) : Nat :=
  if self.status ≠ "queued" then 0
  else
    (table.filter (fun e =>
      decide (e.id ≠ self.id) &&
      e.status == "queued" &&
      (decide (e.priority > self.priority) ||
        (decide (e.priority = self.priority) && decide (e.queued_at < self.queued_at))))).length + 1

/-- Strict scheduling order used throughout: `a` is served before `b` iff it
has strictly higher priority, or equal priority and an earlier enqueue
time. -/
def beats (a b : QueueEntry) : Prop :=
  a.priority > b.priority ∨ (a.priority = b.priority ∧ a.queued_at < b.queued_at)

instance (a b : QueueEntry) : Decidable (beats a b) := by
  unfold beats; infer_instance

/-- One step of selecting the best entry; models the effect of
`ORDER BY priority DESC, queued_at ASC ... .first()` in
`QueueManager._worker_loop` (`queue_manager.py` lines 144-147). -/
def pickBetter (acc : Option QueueEntry) (e : QueueEntry) : Option QueueEntry :=
  match acc with
  | none => some e
  | some a => if beats e a then some e else some a

/-- The queued entry the worker loop would process next: the `queued` row
that is minimal for priority-descending then enqueue-time-ascending order. -/
def next_queued_item (table : List QueueEntry) : Option QueueEntry :=
  (table.filter (fun e => e.status == "queued")).foldl pickBetter none

/-- `QueueManager.add_to_queue` (`queue_manager.py` lines 63-84): if a queue
row for the meeting already exists (any status) it is returned unchanged and
nothing is inserted; otherwise a single new row with status `queued` is
inserted.  Returns the entry handed back to the caller together with the new
table. -/
def add_to_queue (table : List QueueEntry) (nextId meeting_id : Nat)
    (priority : Int) (now : Nat) : QueueEntry × List QueueEntry :=
  match table.find? (fun e => e.meeting_id == meeting_id) with
  | some existing => (existing, table)
  | none =>
    let q : QueueEntry :=
      { id := nextId, meeting_id := meeting_id, priority := priority,
        queued_at := now, status := "queued" }
    (q, table ++ [q])

/-! ## Transcript cues and time values -/

/-- A JSON time value as `safe_time_convert` (inside
`group_consecutive_segments`, `pipeline.py` lines 2208-2230) distinguishes
them: a missing value, an int/float, a string in `H:M:S` form with three
colon-separated parts, or anything unparseable. -/
inductive TimeVal where
  | noneV : TimeVal
  | numV (q : ℚ) : TimeVal
  | hmsV (h m s : ℚ) : TimeVal
  | invalidV : TimeVal
deriving DecidableEq, Repr

/-- `safe_time_convert(time_value, default)`: missing or unparseable values
give the default, numbers give themselves, a three-part `H:M:S` string gives
`h*3600 + m*60 + s`. -/
def safe_time_convert (t : TimeVal) (default : ℚ) : ℚ :=
  match t with
  | .noneV => default
  | .numV q => q
  | .hmsV h m s => h * 3600 + m * 60 + s
  | .invalidV => default

/-- A time value that converts independently of the supplied default. -/
def TimeVal.isValid : TimeVal → Bool
  | .numV _ => true
  | .hmsV _ _ _ => true
  | _ => false

/-- One transcript cue, as produced by `srt_to_json` (`pipeline.py` lines
1704-1728): a sequence index, start/end times, a speaker label (initially
empty) and the raw text. -/
structure Seg where
  index : Nat
  start : TimeVal
  «end» : TimeVal
  speaker : String
  text : String
deriving DecidableEq, Repr

/-! ## Constants of `pipeline.py` -/

def MAX_RETRIES : Nat := 3
def BASE_DELAY : Nat := 1
def MAX_DELAY : Nat := 60
def MAX_SEGMENTS_PER_GPT_BATCH : Nat := 200
def BATCH_OVERLAP_SIZE : Nat := 5

/-! ## The overlapping-batch diarization loop
(`fill_speakers_with_gpt_enhanced`, `pipeline.py` lines 1054-1111).

The two provider calls (`fill_speakers_in_batch_gpt`, which may return
`None`, and the Gemini fallback `fill_speakers_in_batch`) are modelled as
oracle parameters mapping the batch number and the batch to an optional
labeled batch; a `none` oracle answer is the provider failing, after which
the code falls back to the original batch.  Batch size `B` and overlap `K`
model the module constants `MAX_SEGMENTS_PER_GPT_BATCH` and
`BATCH_OVERLAP_SIZE`; `bnds` models the precomputed
`detect_speaker_boundaries` output. -/

/-- Boundary snapping (`pipeline.py` lines 1059-1063): the first detected
boundary `b` with `i < b ≤ batch_end`, `batch_end < n` and
`|b - batch_end| < 10` replaces the default cut. -/
def adjustEnd (bnds : List Nat) (i dflt n : Nat) : Nat :=
  match bnds.find? (fun b =>
      decide (i < b) && decide (b ≤ dflt) && decide (dflt < n) &&
      decide (dflt - b < 10)) with
  | some b => b
  | none => dflt

/-- The provider fallback chain for one batch (`pipeline.py` lines
1079-1100): the GPT call's result if it succeeded, otherwise the Gemini
call's result, otherwise the original batch unchanged. -/
def providerFill (gpt gemini : Nat → List Seg → Option (List Seg))
    (bn : Nat) (batch : List Seg) : List Seg :=
  match gpt bn batch with
  | some fb => fb
  | none => (gemini bn batch).getD batch

/-- The `while i < len(transcript_data)` loop of
`fill_speakers_with_gpt_enhanced`, with explicit fuel (the loop advances `i`
by at least one per iteration for the code's constants, so
`data.length + 1` fuel suffices).  The first batch is appended whole; every
later batch is appended without its first `K` (overlap) cues; the next
batch starts at `batch_end - K` unless the batch reached the end. -/
def fillLoop (data : List Seg) (B K : Nat) (bnds : List Nat)
    (gpt gemini : Nat → List Seg → Option (List Seg)) :
    Nat → Nat → Nat → List Seg → List Seg
  | 0, _, _, acc => acc
  | fuel + 1, i, bn, acc =>
    if i < data.length then
      let dflt := min (i + B) data.length
      let e := adjustEnd bnds i dflt data.length
      let batch := (data.take e).drop i
      let filled := providerFill gpt gemini bn batch
      let acc' := if bn = 1 then acc ++ filled else acc ++ filled.drop K
      let i' := if e < data.length then e - K else e
      fillLoop data B K bnds gpt gemini fuel i' (bn + 1) acc'
    else acc

/-- `fill_speakers_with_gpt_enhanced`: run the batching loop from the start
of the cue list. -/
def fill_speakers_with_gpt_enhanced (data : List Seg) (B K : Nat)
    (bnds : List Nat) (gpt gemini : Nat → List Seg → Option (List Seg)) :
    List Seg :=
  fillLoop data B K bnds gpt gemini (data.length + 1) 0 1 []

/-- Observer of the same control flow: the `(start, end)` span of each batch
the loop submits, in order. -/
def fillSpansLoop (data : List Seg) (B K : Nat) (bnds : List Nat) :
    Nat → Nat → List (Nat × Nat)
  | 0, _ => []
  | fuel + 1, i =>
    if i < data.length then
      let dflt := min (i + B) data.length
      let e := adjustEnd bnds i dflt data.length
      (i, e) :: fillSpansLoop data B K bnds fuel (if e < data.length then e - K else e)
    else []

/-- The list of batch spans submitted by the loop. -/
def batchSpans (data : List Seg) (B K : Nat) (bnds : List Nat) :
    List (Nat × Nat) :=
  fillSpansLoop data B K bnds (data.length + 1) 0

/-! ## Response decompression and per-batch validation
(`decompress_batch_response`, `pipeline.py` lines 557-617, and the
validation step of `fill_speakers_in_batch_gpt`, lines 953-965). -/

/-- Abstract result of `json.loads` on a provider response, after the
markdown stripping of `decompress_batch_response`:
`pairs items` is a non-empty JSON array whose first element is a
two-element array (the compressed `[[index, speaker], ...]` format; a `none`
item is an entry whose index is not convertible to `int` and is skipped);
`dicts segs` is a non-empty JSON array of objects carrying an `index` key
(the full fallback format, returned as-is); `unparseable` covers JSON parse
failures, empty arrays and any other shape, all of which make the source
return the original batch. -/
inductive LLMResp where
  | pairs (items : List (Option (Nat × String))) : LLMResp
  | dicts (segs : List Seg) : LLMResp
  | unparseable : LLMResp

/-- In the compressed format the source builds `speaker_map` by iterating
the items (a later item for the same index overwrites an earlier one) and
then rewrites the speakers of a copy of the original batch; strings are
stripped when entered into the map.  For the dict format the parsed list is
returned unchanged; otherwise the original batch is returned. -/
def decompress_batch_response (resp : LLMResp) (original : List Seg) :
    List Seg :=
  match resp with
  | .pairs items =>
    let speaker_map := items.filterMap id
    original.map fun seg =>
      match speaker_map.reverse.find? (fun p => p.1 == seg.index) with
      | some p => { seg with speaker := p.2.trim }
      | none => seg
  | .dicts segs => segs
  | .unparseable => original

/-- The validation applied by `fill_speakers_in_batch_gpt` after
decompression: a segment-count mismatch raises `ValueError` (modelled as
`none`, which the retry loop treats like any other exception); empty
speakers are merely counted and printed, so they do NOT fail validation. -/
def gptValidate (resp : LLMResp) (batch : List Seg) : Option (List Seg) :=
  let filled := decompress_batch_response resp batch
  if filled.length = batch.length then some filled else none

/-- Outcome of one attempt of the `for attempt in range(MAX_RETRIES)` loop
of `fill_speakers_in_batch_gpt`: either a response was obtained, or the call
raised, with the source's rate-limit classification (`429`/`Too Many
Requests`/`rate limit` in the message) and the optional parsed
`Retry-After` header value. -/
inductive AttemptRes where
  | ok (resp : LLMResp) : AttemptRes
  | err (isRateLimit : Bool) (retryAfter : Option Nat) : AttemptRes

/-- The delay slept after a failed attempt `k` (0-based), from
`fill_speakers_in_batch_gpt` lines 986-1017: a rate-limited attempt with a
parsed `Retry-After` value `t` sleeps `min (t + 2) MAX_DELAY` (the source
adds a 2-second buffer when parsing the header); a rate-limited attempt
without one sleeps `min (30 + 10*k) MAX_DELAY`; any other failure sleeps the
exponential backoff `min (BASE_DELAY * 2^k) MAX_DELAY`. -/
def retryDelay (isRateLimit : Bool) (retryAfter : Option Nat) (k : Nat) :
    Nat :=
  if isRateLimit then
    match retryAfter with
    | some t => min (t + 2) MAX_DELAY
    | none => min (30 + 10 * k) MAX_DELAY
  else min (BASE_DELAY * 2 ^ k) MAX_DELAY

/-- The retry loop of `fill_speakers_in_batch_gpt`, by recursion on the
number of remaining attempts (`remaining = MAX_RETRIES - k` where `k` is the
0-based attempt index).  A validated response returns immediately; a failure
on the last attempt returns `none` without sleeping; otherwise the loop
sleeps the computed delay and retries.  Returns the result together with the
list of delays slept. -/
def retryRemaining (oracle : Nat → AttemptRes) (batch : List Seg) :
    Nat → Nat → Option (List Seg) × List Nat
  | 0, _ => (none, [])
  | r + 1, k =>
    let onFail := fun (rl : Bool) (ra : Option Nat) =>
      if r = 0 then ((none : Option (List Seg)), ([] : List Nat))
      else
        let rec0 := retryRemaining oracle batch r (k + 1)
        (rec0.1, retryDelay rl ra k :: rec0.2)
    match oracle k with
    | .ok resp =>
      match gptValidate resp batch with
      | some filled => (some filled, [])
      | none => onFail false none
    | .err rl ra => onFail rl ra

/-- The whole bounded-retry wrapper: `MAX_RETRIES` attempts starting at
attempt 0; after exhaustion the source returns `(None, 0)` to the caller
instead of raising. -/
def gpt_retry (oracle : Nat → AttemptRes) (batch : List Seg) :
    Option (List Seg) × List Nat :=
  retryRemaining oracle batch MAX_RETRIES 0

/-! ## Segment assembly (`group_consecutive_segments`, `pipeline.py`
lines 2202-2269). -/

/-- The dictionary accumulated per speaker turn.  `combined_text` is set
when the group is closed (before that the source's dict has no such key;
modelled as the empty string). -/
structure Group where
  speaker : String
  text_parts : List String
  start_time : ℚ
  end_time : ℚ
  segment_count : Nat
  combined_text : String
deriving DecidableEq, Repr

/-- The group opened at a segment: its speaker, its text, its converted
start and end times (default 0), count 1. -/
def initGroup (s : Seg) : Group :=
  { speaker := s.speaker, text_parts := [s.text],
    start_time := safe_time_convert s.start 0,
    end_time := safe_time_convert s.«end» 0,
    segment_count := 1, combined_text := "" }

/-- Closing a group sets `combined_text := ' '.join(text_parts)`. -/
def closeGroup (g : Group) : Group :=
  { g with combined_text := String.intercalate " " g.text_parts }

/-- The loop body of `group_consecutive_segments`: while the next segment
has the same speaker, append its text and extend the end time (the
conversion default being the current end time, as in
`safe_time_convert(segment.get('end', current_group['end_time']))`);
otherwise close the current group and open a new one. -/
def gcsGo (cur : Group) : List Seg → List Group
  | [] => [closeGroup cur]
  | s :: rest =>
    if s.speaker = cur.speaker then
      gcsGo { cur with
        text_parts := cur.text_parts ++ [s.text],
        end_time := safe_time_convert s.«end» cur.end_time,
        segment_count := cur.segment_count + 1 } rest
    else closeGroup cur :: gcsGo (initGroup s) rest

/-- `group_consecutive_segments`: empty input gives no groups; otherwise the
single left-to-right pass above. -/
def group_consecutive_segments : List Seg → List Group
  | [] => []
  | s :: rest => gcsGo (initGroup s) rest

/-- Reference definition following the spec's words: the maximal runs of
consecutive cues carrying the same speaker label. -/
def speakerRuns : List Seg → List (List Seg)
  | [] => []
  | [s] => [[s]]
  | s :: s' :: rest =>
    if s.speaker = s'.speaker then
      match speakerRuns (s' :: rest) with
      | r :: rs => (s :: r) :: rs
      | [] => [[s]]
    else [s] :: speakerRuns (s' :: rest)

/-- Reference turn built from one run, following the spec's words: the
combined text is the run's texts joined by single spaces, the start time is
the first cue's start, the end time is the last cue's end. -/
def mkTurn (run : List Seg) : Group :=
  { speaker := (run.head?.map Seg.speaker).getD "",
    text_parts := run.map Seg.text,
    start_time := safe_time_convert ((run.head?.map Seg.start).getD TimeVal.invalidV) 0,
    end_time := safe_time_convert ((run.getLast?.map Seg.«end»).getD TimeVal.invalidV) 0,
    segment_count := run.length,
    combined_text := String.intercalate " " (run.map Seg.text) }

/-! ## String machinery for `parse_speaker_info`
(`pipeline.py` lines 2022-2200).

All scanning is done on `List Char`.  Python's `str.strip`, `str.lower`,
`in` (substring), `split` and the five regular expressions of the parser are
realised as explicit character-level functions; each definition's comment
records which source construct it renders.  Case handling is ASCII (all
keyword lists in the source are ASCII). -/

/-- Python `str.strip()`. -/
def trimL (cs : List Char) : List Char :=
  ((cs.dropWhile Char.isWhitespace).reverse.dropWhile Char.isWhitespace).reverse

/-- Python `str.lower()`. -/
def lcL (cs : List Char) : List Char := cs.map Char.toLower

/-- Helper for substring search: does `pat` occur in the scanned list. -/
def subAux (pat : List Char) : List Char → Bool
  | [] => pat.isEmpty
  | c :: t => pat.isPrefixOf (c :: t) || subAux pat t

/-- Python `pat in hay` (substring containment). -/
def hasSubstr (hay pat : List Char) : Bool := subAux pat hay

/-- Python `str.split(sep)` for a single-character separator, keeping empty
pieces. -/
def splitOnChar (sep : Char) : List Char → List (List Char)
  | [] => [[]]
  | c :: t =>
    let r := splitOnChar sep t
    if c = sep then [] :: r
    else
      match r with
      | h :: rr => (c :: h) :: rr
      | [] => [[c]]

/-- Python `str.split(sep)` for a multi-character separator (left-to-right,
non-overlapping); fuel-driven, the fuel being the input length. -/
def splitOnStrGo (sep : List Char) : Nat → List Char → List (List Char)
  | _, [] => [[]]
  | 0, cs => [cs]
  | fuel + 1, c :: t =>
    if sep.isPrefixOf (c :: t) then
      [] :: splitOnStrGo sep fuel ((c :: t).drop sep.length)
    else
      match splitOnStrGo sep fuel t with
      | h :: rr => (c :: h) :: rr
      | [] => [[c]]

/-- Python `str.split(sep)` for a non-empty multi-character separator. -/
def splitOnStr (sep cs : List Char) : List (List Char) :=
  splitOnStrGo sep cs.length cs

/-- Python `str.split()` with no argument: split on whitespace runs,
dropping empty pieces. -/
def splitWsGo (acc : List Char) : List Char → List (List Char)
  | [] => if acc.isEmpty then [] else [acc.reverse]
  | c :: t =>
    if c.isWhitespace then
      if acc.isEmpty then splitWsGo [] t else acc.reverse :: splitWsGo [] t
    else splitWsGo (c :: acc) t

/-- Case-insensitive prefix test: `pat` (already lowercased) is a prefix of
the scanned characters compared lowercase, as `re.IGNORECASE` matching of a
literal does. -/
def ciStarts : List Char → List Char → Bool
  | [], _ => true
  | _ :: _, [] => false
  | p :: ps, c :: cs => p == c.toLower && ciStarts ps cs

/-- Python `str.isupper()` (ASCII): at least one letter and no lowercase
letter. -/
def pyIsUpper (cs : List Char) : Bool :=
  cs.any Char.isAlpha && cs.all (fun c => !c.isLower)

/-- Consume at least one whitespace character then all following whitespace
(`\s+` before a token that itself starts with a non-space). -/
def skipWs1 : List Char → Option (List Char)
  | [] => none
  | c :: t => if c.isWhitespace then some (t.dropWhile Char.isWhitespace) else none

/-! ### The keyword lists of `parse_speaker_info` (lines 2033-2062). -/

def country_indicators : List String :=
  ["Afghanistan", "Albania", "Algeria", "Argentina", "Australia", "Austria",
   "Bangladesh", "Belgium", "Brazil", "Canada", "China", "Colombia",
   "Denmark", "Egypt", "France", "Germany", "India", "Indonesia", "Iran",
   "Iraq", "Italy", "Japan", "Jordan", "Kenya", "Malaysia", "Mexico",
   "Morocco", "Netherlands", "Nigeria", "Norway", "Pakistan", "Philippines",
   "Poland", "Russia", "Saudi Arabia", "South Africa", "Spain", "Sweden",
   "Switzerland", "Turkey", "Ukraine", "United Kingdom", "UK",
   "United States", "USA", "Venezuela", "Vietnam", "Yemen", "Zimbabwe",
   "Dominican Republic", "East African"]

def org_indicators : List String :=
  ["UN", "United Nations", "UNESCO", "UNICEF", "WHO", "IMF", "World Bank",
   "European Union", "EU", "African Union", "AU", "ASEAN", "NATO", "OSCE",
   "Ministry", "Department", "Office", "Committee", "Council", "Commission",
   "Organization", "Organisation", "Government", "Embassy", "Delegation",
   "Secretariat", "Agency", "Bureau", "Institute", "Foundation", "Society",
   "Association", "Federation", "Union", "Alliance", "Coalition",
   "ADB", "Asian Development Bank", "Drupal", "Project Liberty"]

def title_indicators : List String :=
  ["Secretary-General", "Secretary General", "Undersecretary",
   "Under-Secretary", "Assistant Secretary", "Special Representative",
   "Special Envoy", "Special Advisor", "Ambassador",
   "Permanent Representative", "Minister", "Deputy Minister",
   "Director-General", "Director General", "Executive Director",
   "President", "Vice President", "Chairman", "Chair", "Moderator",
   "Commissioner", "Representative", "Delegate", "Coordinator", "Adviser",
   "Advisor", "CEO", "Expert", "Analyst", "Consultant", "Researcher"]

/-- Pattern 8's ordered special-case table (lines 2149-2155). -/
def special_cases : List (String × String) :=
  [("moderator", "Event Moderator"), ("chair", "Session Chair"),
   ("chairperson", "Session Chair"), ("host", "Event Host"),
   ("facilitator", "Session Facilitator")]

/-! ### The eleven patterns, in priority order. -/

/-- Scan for the first opening parenthesis that has at least one character
before it and at least one character after it (within the body before the
final closing parenthesis); realises the non-greedy split of
`^(.+?)\s*\((.+?)\)$`. -/
def splitParenGo (acc : List Char) : List Char → Option (List Char × List Char)
  | [] => none
  | c :: t =>
    if c = '(' && !acc.isEmpty && !t.isEmpty then some (acc.reverse, t)
    else splitParenGo (c :: acc) t

/-- Pattern 1: `"Name (Organization/Country)"`, the regex
`^(.+?)\s*\((.+?)\)$` (line 2065). -/
def pattern1 (cs : List Char) : Option (String × String) :=
  match cs.getLast? with
  | some ')' =>
    match splitParenGo [] cs.dropLast with
    | some (before, after) =>
      some (String.mk (trimL before), String.mk (trimL after))
    | none => none
  | _ => none

/-- Scan for the first dash (hyphen or en-dash) with at least one character
on each side; realises `^(.+?)\s*[–-]\s*(.+)$`. -/
def splitDashGo (acc : List Char) : List Char → Option (List Char × List Char)
  | [] => none
  | c :: t =>
    if (c = '-' || c = '–') && !acc.isEmpty && !t.isEmpty then
      some (acc.reverse, t)
    else splitDashGo (c :: acc) t

/-- Pattern 2: `"Name - Organization"` (line 2072). -/
def pattern2 (cs : List Char) : Option (String × String) :=
  (splitDashGo [] cs).map fun p =>
    (String.mk (trimL p.1), String.mk (trimL p.2))

/-- Pattern 3: `"Name, Title, Organization"` (lines 2079-2085): split on
commas; if there are at least two parts and the re-joined remainder (joined
with `", "` as the source does) contains an organization or country keyword
case-insensitively, return (first part, remainder). -/
def pattern3 (cs : List Char) : Option (String × String) :=
  match splitOnChar ',' cs with
  | p0 :: p1 :: rest =>
    let remaining := trimL (List.intercalate [',', ' '] (p1 :: rest))
    if (org_indicators ++ country_indicators).any
        (fun ind => hasSubstr (lcL remaining) (lcL ind.data)) then
      some (String.mk (trimL p0), String.mk remaining)
    else none
  | _ => none

/-- Scan for the first colon with at least one character on each side;
realises `^(.+?):\s*(.+)$`. -/
def splitColonGo (acc : List Char) : List Char → Option (List Char × List Char)
  | [] => none
  | c :: t =>
    if c = ':' && !acc.isEmpty && !t.isEmpty then some (acc.reverse, t)
    else splitColonGo (c :: acc) t

/-- Pattern 4: `"Organization: Name"` (line 2088); the part after the colon
is the name, the part before it is what is represented. -/
def pattern4 (cs : List Char) : Option (String × String) :=
  (splitColonGo [] cs).map fun p =>
    (String.mk (trimL p.2), String.mk (trimL p.1))

/-- After a matched title and keyword (`of|for|from`) plus whitespace, the
non-greedy capture `(.+?)(?:\s|$)` is the next whitespace-delimited token. -/
def p5aKw (r1 : List Char) : Option (List Char) :=
  ["of", "for", "from"].findSome? fun kw =>
    if ciStarts kw.data r1 then
      match skipWs1 (r1.drop kw.data.length) with
      | some r2 =>
        let tok := r2.takeWhile (fun c => !c.isWhitespace)
        if tok.isEmpty then none else some tok
      | none => none
    else none

/-- Try title pattern 5a, `rf'{title}\s+(?:of|for|from)\s+(.+?)(?:\s|$)'`, at
the head of the scanned characters. -/
def p5aHere (tl : List Char) (cs : List Char) : Option (List Char) :=
  if ciStarts tl cs then
    match skipWs1 (cs.drop tl.length) with
    | some r1 => p5aKw r1
    | none => none
  else none

/-- Leftmost match of title pattern 5a. -/
def p5aScan (tl : List Char) : List Char → Option (List Char)
  | [] => none
  | c :: t =>
    match p5aHere tl (c :: t) with
    | some cap => some cap
    | none => p5aScan tl t

/-- Title pattern 5b, `rf'(.+?)\s+{title}'`: the text before the first
occurrence of the title that is immediately preceded by whitespace (the
input being stripped, the preceding text is never empty). -/
def p5bGo (tl : List Char) (acc : List Char) : List Char → Option (List Char)
  | [] => none
  | c :: t =>
    if (match acc with | p :: _ => p.isWhitespace | [] => false)
        && ciStarts tl (c :: t) then
      some acc.reverse
    else p5bGo tl (c :: acc) t

/-- The remainder after the leftmost occurrence of the title. -/
def findTitleRest (tl : List Char) : List Char → Option (List Char)
  | [] => none
  | c :: t =>
    if ciStarts tl (c :: t) then some ((c :: t).drop tl.length)
    else findTitleRest tl t

/-- Drop until the first position with two consecutive letters (where
`[A-Z][a-z]+` under `re.IGNORECASE` can start matching). -/
def firstWord2 : List Char → Option (List Char)
  | [] => none
  | [_] => none
  | a :: b :: t =>
    if a.isAlpha && b.isAlpha then some (a :: b :: t) else firstWord2 (b :: t)

/-- Greedy extension of `(?:\s+[A-Z][a-z]+)*` under `re.IGNORECASE`: keep
absorbing a whitespace run followed by a word of at least two letters. -/
def grabWordsGo : Nat → List Char → List Char → List Char
  | 0, acc, _ => acc
  | fuel + 1, acc, rest =>
    let ws := rest.takeWhile Char.isWhitespace
    let r2 := rest.dropWhile Char.isWhitespace
    let w2 := r2.takeWhile Char.isAlpha
    if !ws.isEmpty && decide (w2.length ≥ 2) then
      grabWordsGo fuel (acc ++ ws ++ w2) (r2.dropWhile Char.isAlpha)
    else acc

/-- The capture of title pattern 5c starting at a two-letter position. -/
def grabWords (cs : List Char) : List Char :=
  grabWordsGo cs.length (cs.takeWhile Char.isAlpha) (cs.dropWhile Char.isAlpha)

/-- Title pattern 5c, `rf'{title}.*?([A-Z][a-z]+(?:\s+[A-Z][a-z]+)*)'` with
`re.IGNORECASE`: after the leftmost title occurrence, capture from the first
two-consecutive-letter position the maximal chain of space-separated words
of at least two letters. -/
def p5cFind (tl : List Char) (cs : List Char) : Option (List Char) :=
  match findTitleRest tl cs with
  | some rest => (firstWord2 rest).map grabWords
  | none => none

/-- The acceptance check applied to every pattern-5 capture (lines
2108-2112): the stripped extract is longer than two characters and contains
a known country or organization keyword case-insensitively. -/
def p5check (cap : List Char) : Bool :=
  let e := trimL cap
  decide (e.length > 2) &&
    ((country_indicators ++ org_indicators).any
      (fun ind => hasSubstr (lcL e) (lcL ind.data)))

/-- Try sub-pattern 5c for one title. -/
def tryTitleC (tl : List Char) (full : String) (cs : List Char) :
    Option (String × String) :=
  match p5cFind tl cs with
  | some cap => if p5check cap then some (full, String.mk (trimL cap)) else none
  | none => none

/-- Try sub-pattern 5b then 5c for one title. -/
def tryTitleB (tl : List Char) (full : String) (cs : List Char) :
    Option (String × String) :=
  match p5bGo tl [] cs with
  | some g => if p5check g then some (full, String.mk (trimL g)) else tryTitleC tl full cs
  | none => tryTitleC tl full cs

/-- Try sub-patterns 5a, 5b, 5c in order for one title; a capture that fails
the acceptance check falls through to the next sub-pattern, as the source's
inner `for pattern in title_patterns` loop does. -/
def tryTitle (title : String) (cs : List Char) : Option (String × String) :=
  let tl := lcL title.data
  let full := String.mk cs
  match p5aScan tl cs with
  | some cap => if p5check cap then some (full, String.mk (trimL cap)) else tryTitleB tl full cs
  | none => tryTitleB tl full cs

/-- Pattern 5 (lines 2096-2112): for each title occurring in the name
case-insensitively, try the three title regexes; the match is returned with
the full (stripped) name as the speaker. -/
def pattern5 (cs : List Char) : Option (String × String) :=
  title_indicators.findSome? fun title =>
    if hasSubstr (lcL cs) (lcL title.data) then tryTitle title cs else none

/-- Pattern 6 (lines 2115-2121): the first listed country occurring in the
name; with a governmental context word the representation is
`"<country> Government"`, otherwise the country itself. -/
def pattern6 (cs : List Char) : Option (String × String) :=
  let low := lcL cs
  (country_indicators.find? (fun c => hasSubstr low (lcL c.data))).map
    fun country =>
      if ["minister", "government", "representative", "ambassador"].any
          (fun w => hasSubstr low w.data) then
        (String.mk cs, country ++ " Government")
      else (String.mk cs, country)

/-- Pattern 7 (lines 2124-2146): the first listed organization occurring in
the name, with the source's chain of special cases. -/
def pattern7 (cs : List Char) : Option (String × String) :=
  let low := lcL cs
  (org_indicators.find? (fun o => hasSubstr low (lcL o.data))).map fun org =>
    let has := fun (p : String) => hasSubstr low p.data
    if has "world bank" then (String.mk cs, "World Bank")
    else if has "asian development bank" || has "adb" then
      (String.mk cs, "Asian Development Bank")
    else if has "drupal" then (String.mk cs, "Drupal Foundation")
    else if has "project liberty" then (String.mk cs, "Project Liberty Institute")
    else if has "east african" then (String.mk cs, "East African Community")
    else if has "un" || has "united nations" then
      if has "office" then (String.mk cs, "UN Office")
      else if has "special" then (String.mk cs, "UN Special Office")
      else (String.mk cs, "United Nations")
    else (String.mk cs, org)

/-- Pattern 8 (lines 2157-2159): the first special-case role occurring in
the name. -/
def pattern8 (cs : List Char) : Option (String × String) :=
  let low := lcL cs
  (special_cases.find? (fun rc => hasSubstr low rc.1.data)).map
    fun rc => (String.mk cs, rc.2)

/-- Scan for the first case-insensitive `of` that is preceded by whitespace
and followed by whitespace and a non-empty remainder; realises
`^(.+?)\s+of\s+(.+)$` with `re.IGNORECASE`. -/
def p9Go (acc : List Char) : List Char → Option (List Char × List Char)
  | [] => none
  | c :: t =>
    if (match acc with | p :: _ => p.isWhitespace | [] => false)
        && ciStarts ['o', 'f'] (c :: t) then
      match skipWs1 ((c :: t).drop 2) with
      | some rest => if rest.isEmpty then p9Go (c :: acc) t else some (acc.reverse, rest)
      | none => p9Go (c :: acc) t
    else p9Go (c :: acc) t

/-- Pattern 9 (lines 2162-2170): `"Name of Organization"`; a leading
`"the "` (case-sensitive) is removed from the organization part. -/
def pattern9 (cs : List Char) : Option (String × String) :=
  (p9Go [] cs).map fun p =>
    let org := trimL p.2
    let org2 := if "the ".data.isPrefixOf org then org.drop 4 else org
    (String.mk (trimL p.1), String.mk org2)

/-- Pattern 10 (lines 2173-2176): a name that is itself an organization:
contains an organization keyword and is either all-uppercase or contains one
of the four lowercase markers. -/
def pattern10 (cs : List Char) : Option (String × String) :=
  let low := lcL cs
  if org_indicators.any (fun o => hasSubstr low (lcL o.data)) then
    if pyIsUpper cs
        || ["ministry", "department", "office", "un "].any
          (fun w => hasSubstr low w.data) then
      some (String.mk cs, String.mk cs)
    else none
  else none

/-- Pattern 11 (lines 2179-2186): two capitalized words of length at least
two and no organization keyword look like a person's name; the
representation is explicitly `"Not specified"`. -/
def pattern11 (cs : List Char) : Option (String × String) :=
  match splitWsGo [] cs with
  | w0 :: w1 :: _ =>
    if (match w0 with | c :: _ => c.isUpper | [] => false)
        && (match w1 with | c :: _ => c.isUpper | [] => false)
        && decide (w0.length > 1) && decide (w1.length > 1)
        && !(org_indicators.any fun o => hasSubstr (lcL cs) (lcL o.data)) then
      some (String.mk cs, "Not specified")
    else none
  | _ => none

/-- The default-branch name clean-up (lines 2189-2197). -/
def cleanName (cs : List Char) : List Char :=
  if hasSubstr cs " - ".data && (splitOnStr " - ".data cs).length = 2 then
    match splitOnStr " - ".data cs with
    | [p0, p1] => if p0.length < p1.length then trimL p0 else trimL p1
    | _ => cs
  else if hasSubstr cs " (".data then
    match splitOnStr " (".data cs with
    | p0 :: _ => trimL p0
    | [] => cs
  else cs

/-- The eleven patterns in the source's priority order. -/
def patternList : List (List Char → Option (String × String)) :=
  [pattern1, pattern2, pattern3, pattern4, pattern5, pattern6, pattern7,
   pattern8, pattern9, pattern10, pattern11]

/-- First defined value of a list of partial functions: the first pattern
that matches wins. -/
def firstSome {α β : Type} : List (α → Option β) → α → Option β
  | [], _ => none
  | f :: fs, a =>
    match f a with
    | some b => some b
    | none => firstSome fs a

/-- `parse_speaker_info` (lines 2022-2200): an empty or whitespace-only raw
label resolves to `("Unknown Speaker", "Unknown")`; otherwise the stripped
label is run through the eleven patterns in priority order; if none
matches, the cleaned name is returned with representation
`"Not specified"`. -/
def parse_speaker_info (speaker_name : String) : String × String :=
  if speaker_name.data.all Char.isWhitespace then ("Unknown Speaker", "Unknown")
  else
    let cs := trimL speaker_name.data
    match firstSome patternList cs with
    | some r => r
    | none => (String.mk (cleanName cs), "Not specified")

/-! ## `create_speakers_table` (`pipeline.py` lines 2271-2299). -/

/-- One row of the final speakers table, matching the persisted `Segment`
schema plus the two extra reporting fields. -/
structure Row where
  speaker : String
  representing : String
  content : String
  start_time : ℚ
  end_time : ℚ
  duration_seconds : ℚ
  segment_count : Nat
deriving DecidableEq, Repr

/-- `create_speakers_table`: group consecutive same-speaker cues, then build
one row per group, resolving the raw label through `parse_speaker_info`.
The `meeting_id` argument is accepted and unused, as in the source. -/
def create_speakers_table (transcript_data : List Seg) (meeting_id : Nat) :
    List Row :=
  let _ := meeting_id
  (group_consecutive_segments transcript_data).map fun g =>
    let p := parse_speaker_info g.speaker
    { speaker := p.1, representing := p.2, content := g.combined_text,
      start_time := g.start_time, end_time := g.end_time,
      duration_seconds := g.end_time - g.start_time,
      segment_count := g.segment_count }

/-! ## Proof auxiliaries and concrete test data -/

/-- The loop accumulator of `group_consecutive_segments` after having
absorbed the non-empty pending run `p :: ps` (its combined text not set
yet). -/
def accOf (p : Seg) (ps : List Seg) : Group :=
  { speaker := p.speaker, text_parts := (p :: ps).map Seg.text,
    start_time := safe_time_convert p.start 0,
    end_time :=
      safe_time_convert (((p :: ps).getLast?.map Seg.«end»).getD TimeVal.invalidV) 0,
    segment_count := ps.length + 1, combined_text := "" }

/-- One hundred cues with empty speaker labels, indexed 0-99. -/
def data100 : List Seg :=
  (List.range 100).map fun j =>
    { index := j, start := TimeVal.numV 0, «end» := TimeVal.numV 0,
      speaker := "", text := "" }

/-- A provider oracle that labels every cue of batch `bn` with speaker
`"P<bn>"`, so the batch of origin of each merged label is visible. -/
def gptLab : Nat → List Seg → Option (List Seg) :=
  fun bn b => some (b.map fun s => { s with speaker := "P" ++ toString bn })

/-- A provider oracle that always fails. -/
def oracleNone : Nat → List Seg → Option (List Seg) := fun _ _ => none

/-- A single unlabeled cue. -/
def cueHello : Seg :=
  { index := 0, start := TimeVal.numV 0, «end» := TimeVal.numV 1,
    speaker := "", text := "hello" }

/-- A provider oracle that labels every cue with the pathological raw label
`",Ministry"`. -/
def badLabeler : Nat → List Seg → Option (List Seg) :=
  fun _ b => some (b.map fun s => { s with speaker := ",Ministry" })

/-- The persisted row produced for the single unlabeled cue `cueHello` when
the whole provider chain fails (its duration written as the unreduced
difference the table computes). -/
def rowHello : Row :=
  { speaker := "Unknown Speaker", representing := "Unknown",
    content := "hello", start_time := 0, end_time := 1,
    duration_seconds := 1 - 0, segment_count := 1 }

/-- An attempt oracle that always yields a full-JSON response with the wrong
number of segments for a one-cue batch. -/
def oracleMism : Nat → AttemptRes :=
  fun _ => .ok (.dicts [cueHello, cueHello])

/-- The five cues of the spec's turn-merge scenario: speakers A, A, B, B,
B. -/
def demoC8 : List Seg :=
  [{ index := 0, start := TimeVal.numV 0, «end» := TimeVal.numV 1, speaker := "A", text := "t0" },
   { index := 1, start := TimeVal.numV 1, «end» := TimeVal.numV 2, speaker := "A", text := "t1" },
   { index := 2, start := TimeVal.numV 2, «end» := TimeVal.numV 3, speaker := "B", text := "t2" },
   { index := 3, start := TimeVal.numV 3, «end» := TimeVal.numV 4, speaker := "B", text := "t3" },
   { index := 4, start := TimeVal.numV 4, «end» := TimeVal.numV 5, speaker := "B", text := "t4" }]

/-- The expected first turn of the scenario: cues 0-1. -/
def demoTurnA : Group :=
  { speaker := "A", text_parts := ["t0", "t1"], start_time := 0,
    end_time := 2, segment_count := 2, combined_text := "t0 t1" }

/-- The expected second turn of the scenario: cues 2-4. -/
def demoTurnB : Group :=
  { speaker := "B", text_parts := ["t2", "t3", "t4"], start_time := 2,
    end_time := 5, segment_count := 3, combined_text := "t2 t3 t4" }

/-- A queued job with priority 0 enqueued at time 0. -/
def qB : QueueEntry :=
  { id := 1, meeting_id := 101, priority := 0, queued_at := 0, status := "queued" }

/-- A queued job with priority 5 enqueued later, at time 10. -/
def qA : QueueEntry :=
  { id := 2, meeting_id := 102, priority := 5, queued_at := 10, status := "queued" }

/-! ## Queue lemmas -/

theorem beats_irrefl (a : QueueEntry) : ¬ beats a a := by
  unfold beats; omega

theorem not_beats_right {x r a : QueueEntry}
    (h1 : ¬ beats x r) (h2 : beats x a) : ¬ beats a r := by
  unfold beats at h1 h2 ⊢; omega

theorem not_beats_chain {x a r : QueueEntry}
    (h1 : ¬ beats x a) (h2 : ¬ beats a r) : ¬ beats x r := by
  unfold beats at h1 h2 ⊢; omega

theorem foldl_pickBetter_min :
    ∀ (l : List QueueEntry) (acc : Option QueueEntry) (r : QueueEntry),
      l.foldl pickBetter acc = some r →
      (∀ e ∈ l, ¬ beats e r) ∧ (∀ a, acc = some a → ¬ beats a r) := by
  intro l
  induction l with
  | nil =>
    intro acc r h
    simp only [List.foldl_nil] at h
    refine ⟨by simp, ?_⟩
    intro a ha
    rw [ha] at h
    cases h
    exact beats_irrefl r
  | cons x t ih =>
    intro acc r h
    simp only [List.foldl_cons] at h
    obtain ⟨ht, hacc⟩ := ih (pickBetter acc x) r h
    have hx : ¬ beats x r := by
      cases hc : acc with
      | none => exact hacc x (by simp [pickBetter, hc])
      | some a =>
        by_cases hb : beats x a
        · exact hacc x (by simp [pickBetter, hc, hb])
        · have ha : ¬ beats a r := hacc a (by simp [pickBetter, hc, hb])
          exact not_beats_chain hb ha
    refine ⟨?_, ?_⟩
    · intro e he
      rcases List.mem_cons.mp he with he | he
      · exact he ▸ hx
      · exact ht e he
    · intro a ha
      subst ha
      by_cases hb : beats x a
      · exact not_beats_right hx hb
      · exact hacc a (by simp [pickBetter, hb])

/-- Claim C5.  For all jobs simultaneously `queued`, if A has strictly
higher priority than B, or equal priority and an earlier enqueue time, then
the worker's dequeue query (ORDER BY priority DESC, queued_at ASC, take
first) never selects B while A is queued: A is dequeued before B. -/
theorem dequeue_priority_then_fifo
    (table : List QueueEntry) (A B : QueueEntry)
    (hA : A ∈ table) (hB : B ∈ table)
    (hAq : A.status = "queued") (hBq : B.status = "queued")
    (hbeats : beats A B) :
    next_queued_item table ≠ some B := by
  intro hnext
  have hmem : A ∈ table.filter (fun e => e.status == "queued") := by
    refine List.mem_filter.mpr ⟨hA, ?_⟩
    simp [hAq]
  exact (foldl_pickBetter_min _ none B hnext).1 A hmem hbeats

/-- Witness for C5: in the concrete two-job table, the later-enqueued
higher-priority job qA beats qB, so the dequeue query does not pick qB. -/
theorem dequeue_priority_then_fifo_witness :
    next_queued_item [qB, qA] ≠ some qB :=
  dequeue_priority_then_fifo [qB, qA] qA qB (by decide) (by decide)
    (by decide) (by decide) (by decide)

/-- Claim C1 (code bug).  In a table with job qB (priority 0, enqueued at
time 0) and job qA (priority 5, enqueued later at time 10), the position
query reports position 1 for BOTH jobs, because its filter conjoins
`priority >` with `queued_at <`; the spec's counting (strictly higher
priority, or equal priority and earlier enqueue time) puts qB at position 2,
and indeed the dequeue query selects qA first.  The position query
contradicts the worker's own ordering. -/
theorem position_query_contradicts_dequeue_order :
    position_in_queue qB [qB, qA] = 1 ∧
    position_in_queue qA [qB, qA] = 1 ∧
    position_in_queue_spec qB [qB, qA] = 2 ∧
    next_queued_item [qB, qA] = some qA := by decide

/-- Claim C6.  Enqueueing a meeting that already has a queue row (whatever
its status, in particular `queued` or `processing`) returns an existing row
for that meeting and leaves the table unchanged; enqueueing a meeting with
no row appends exactly one new row in state `queued`. -/
theorem enqueue_idempotent :
    (∀ (table : List QueueEntry) (nid m : Nat) (p : Int) (now : Nat),
      (∃ e ∈ table, e.meeting_id = m) →
      (add_to_queue table nid m p now).2 = table ∧
      (add_to_queue table nid m p now).1 ∈ table ∧
      (add_to_queue table nid m p now).1.meeting_id = m) ∧
    (∀ (table : List QueueEntry) (nid m : Nat) (p : Int) (now : Nat),
      (∀ e ∈ table, e.meeting_id ≠ m) →
      add_to_queue table nid m p now =
        ({ id := nid, meeting_id := m, priority := p, queued_at := now,
           status := "queued" },
         table ++ [{ id := nid, meeting_id := m, priority := p,
                     queued_at := now, status := "queued" }])) := by
  constructor
  · intro table nid m p now hex
    have hne : table.find? (fun e => e.meeting_id == m) ≠ none := by
      intro hnone
      obtain ⟨e, he, hm⟩ := hex
      have := List.find?_eq_none.mp hnone e he
      simp [hm] at this
    obtain ⟨v, hv⟩ := Option.ne_none_iff_exists.mp hne
    have hv' : table.find? (fun e => e.meeting_id == m) = some v := hv.symm
    have hvp := List.find?_some hv'
    simp only [beq_iff_eq] at hvp
    have hvm : v ∈ table := List.mem_of_find?_eq_some hv'
    unfold add_to_queue
    rw [hv']
    exact ⟨rfl, hvm, hvp⟩
  · intro table nid m p now hnone
    have h : table.find? (fun e => e.meeting_id == m) = none := by
      rw [List.find?_eq_none]
      intro e he
      simp [hnone e he]
    unfold add_to_queue
    rw [h]

/-- Witness for C6: re-enqueueing meeting 102 (already queued as qA) is a
no-op, and enqueueing the fresh meeting 7 into the empty table inserts one
queued row. -/
theorem enqueue_idempotent_witness :
    ((add_to_queue [qB, qA] 9 102 3 77).2 = [qB, qA] ∧
      (add_to_queue [qB, qA] 9 102 3 77).1 ∈ [qB, qA] ∧
      (add_to_queue [qB, qA] 9 102 3 77).1.meeting_id = 102) ∧
    add_to_queue [] 1 7 0 0 =
      ({ id := 1, meeting_id := 7, priority := 0, queued_at := 0,
         status := "queued" },
       [{ id := 1, meeting_id := 7, priority := 0, queued_at := 0,
          status := "queued" }]) :=
  ⟨enqueue_idempotent.1 [qB, qA] 9 102 3 77 ⟨qA, by decide, by decide⟩,
   enqueue_idempotent.2 [] 1 7 0 0 (by simp)⟩

/-! ## Segment assembler lemmas -/

theorem safe_time_convert_valid {t : TimeVal} (h : t.isValid = true) (d : ℚ) :
    safe_time_convert t d = safe_time_convert t 0 := by
  cases t with
  | numV q => rfl
  | hmsV a b c => rfl
  | noneV => simp [TimeVal.isValid] at h
  | invalidV => simp [TimeVal.isValid] at h

theorem close_eq_mkTurn (p : Seg) (ps : List Seg) :
    closeGroup (accOf p ps) = mkTurn (p :: ps) := by
  simp [closeGroup, accOf, mkTurn]

theorem runs_uniform : ∀ (ps : List Seg) (p : Seg),
    (∀ x ∈ ps, x.speaker = p.speaker) → speakerRuns (p :: ps) = [p :: ps] := by
  intro ps
  induction ps with
  | nil => intro p _; rfl
  | cons q qs ih =>
    intro p hs
    have hq : q.speaker = p.speaker := hs q (by simp)
    have hqs : ∀ x ∈ qs, x.speaker = q.speaker := by
      intro x hx
      rw [hs x (by simp [hx]), hq]
    simp only [speakerRuns]
    rw [if_pos hq.symm, ih q hqs]

theorem runs_break : ∀ (ps : List Seg) (p s : Seg) (rest : List Seg),
    (∀ x ∈ ps, x.speaker = p.speaker) → s.speaker ≠ p.speaker →
    speakerRuns ((p :: ps) ++ s :: rest) = (p :: ps) :: speakerRuns (s :: rest) := by
  intro ps
  induction ps with
  | nil =>
    intro p s rest _ hne
    simp only [List.cons_append, List.nil_append, speakerRuns]
    rw [if_neg (fun h => hne h.symm)]
  | cons q qs ih =>
    intro p s rest hs hne
    have hq : q.speaker = p.speaker := hs q (by simp)
    have hqs : ∀ x ∈ qs, x.speaker = q.speaker := by
      intro x hx
      rw [hs x (by simp [hx]), hq]
    have hne' : s.speaker ≠ q.speaker := by rw [hq]; exact hne
    have hrec := ih q s rest hqs hne'
    simp only [List.cons_append] at hrec ⊢
    simp only [speakerRuns]
    rw [if_pos hq.symm, hrec]

theorem gcsGo_runs :
    ∀ (rest : List Seg) (p : Seg) (ps : List Seg),
      (∀ x ∈ ps, x.speaker = p.speaker) →
      (∀ x ∈ rest, (x.«end»).isValid = true) →
      gcsGo (accOf p ps) rest = (speakerRuns ((p :: ps) ++ rest)).map mkTurn := by
  intro rest
  induction rest with
  | nil =>
    intro p ps hs _
    simp only [gcsGo, List.append_nil]
    rw [runs_uniform ps p hs]
    simp only [List.map]
    rw [close_eq_mkTurn]
  | cons s rest ih =>
    intro p ps hs hv
    have hvs : (s.«end»).isValid = true := hv s (by simp)
    have hv' : ∀ x ∈ rest, (x.«end»).isValid = true := by
      intro x hx
      exact hv x (by simp [hx])
    simp only [gcsGo]
    by_cases hsp : s.speaker = (accOf p ps).speaker
    · rw [if_pos hsp]
      have hsp' : s.speaker = p.speaker := hsp
      have hrec :
          ({ accOf p ps with
              text_parts := (accOf p ps).text_parts ++ [s.text],
              end_time := safe_time_convert s.«end» (accOf p ps).end_time,
              segment_count := (accOf p ps).segment_count + 1 } : Group) =
            accOf p (ps ++ [s]) := by
        simp [accOf, List.map_append, safe_time_convert_valid hvs]
        rw [show p :: (ps ++ [s]) = (p :: ps) ++ [s] by simp]
        rw [List.getLast?_concat]
        simp
      rw [hrec]
      have hs' : ∀ x ∈ ps ++ [s], x.speaker = p.speaker := by
        intro x hx
        rcases List.mem_append.mp hx with hx | hx
        · exact hs x hx
        · simp at hx
          rw [hx, hsp']
      rw [ih p (ps ++ [s]) hs' hv']
      have : (p :: (ps ++ [s])) ++ rest = (p :: ps) ++ s :: rest := by simp
      rw [this]
    · rw [if_neg hsp]
      have hne : s.speaker ≠ p.speaker := hsp
      have h0 : initGroup s = accOf s [] := rfl
      rw [h0, ih s [] (by simp) hv']
      rw [runs_break ps p s rest hs hne]
      simp only [List.map, List.nil_append]
      rw [close_eq_mkTurn]
      rfl

theorem gcs_eq_runs (l : List Seg) (hv : ∀ x ∈ l, (x.«end»).isValid = true) :
    group_consecutive_segments l = (speakerRuns l).map mkTurn := by
  cases l with
  | nil => rfl
  | cons s rest =>
    show gcsGo (initGroup s) rest = _
    have h0 : initGroup s = accOf s [] := rfl
    rw [h0, gcsGo_runs rest s [] (by simp)
      (fun x hx => hv x (by simp [hx]))]
    rfl

/-- Claim C8.  The assembler's single pass equals the map of the
turn-builder over the maximal same-speaker runs: each turn's text is the
run's texts joined by spaces, its start is the first cue's start and its end
the last cue's end (whenever the cue end times are well-formed values).  In
particular the scenario cues A,A,B,B,B assemble into exactly the two turns
for cues 0-1 and 2-4. -/
theorem segment_assembler_runs :
    (∀ l : List Seg, (∀ x ∈ l, (x.«end»).isValid = true) →
      group_consecutive_segments l = (speakerRuns l).map mkTurn) ∧
    group_consecutive_segments demoC8 = [demoTurnA, demoTurnB] ∧
    speakerRuns demoC8 = [demoC8.take 2, demoC8.drop 2] :=
  ⟨gcs_eq_runs, by decide, by decide⟩

/-- Witness for C8 at the concrete scenario cues. -/
theorem segment_assembler_runs_witness :
    group_consecutive_segments demoC8 = (speakerRuns demoC8).map mkTurn :=
  segment_assembler_runs.1 demoC8 (by decide)

/-! ## Batching-loop lemmas -/

theorem adjustEnd_le (bnds : List Nat) (i dflt n : Nat) :
    adjustEnd bnds i dflt n ≤ dflt := by
  unfold adjustEnd
  split
  · next b hb =>
    have hp := List.find?_some hb
    simp only [Bool.and_eq_true, decide_eq_true_eq] at hp
    omega
  · exact Nat.le_refl _

theorem adjustEnd_cases (bnds : List Nat) (i dflt n : Nat) :
    adjustEnd bnds i dflt n = dflt ∨
      (dflt < n ∧ i < adjustEnd bnds i dflt n ∧
        dflt - adjustEnd bnds i dflt n < 10) := by
  unfold adjustEnd
  split
  · next b hb =>
    have hp := List.find?_some hb
    simp only [Bool.and_eq_true, decide_eq_true_eq] at hp
    exact Or.inr ⟨hp.1.2, hp.1.1.1, hp.2⟩
  · exact Or.inl rfl

theorem providerFill_map {α : Type}
    (gpt gemini : Nat → List Seg → Option (List Seg)) (φ : Seg → α)
    (hg : ∀ bn b fb, gpt bn b = some fb → fb.map φ = b.map φ)
    (hm : ∀ bn b fb, gemini bn b = some fb → fb.map φ = b.map φ)
    (bn : Nat) (batch : List Seg) :
    (providerFill gpt gemini bn batch).map φ = batch.map φ := by
  unfold providerFill
  cases hgb : gpt bn batch with
  | some fb => exact hg bn batch fb hgb
  | none =>
    cases hmb : gemini bn batch with
    | some fb => simpa using hm bn batch fb hmb
    | none => rfl

theorem drop_take_drop {α : Type} (l : List α) (c e : Nat) (h : c ≤ e) :
    l.drop c = (l.take e).drop c ++ l.drop e := by
  have hce : c + (e - c) = e := by omega
  calc l.drop c
      = (l.drop c).take (e - c) ++ (l.drop c).drop (e - c) :=
        (List.take_append_drop _ _).symm
    _ = (l.take (c + (e - c))).drop c ++ l.drop (c + (e - c)) := by
        rw [List.take_drop, List.drop_drop]
    _ = (l.take e).drop c ++ l.drop e := by rw [hce]

theorem fillLoop_covers {α : Type} (data : List Seg) (B K : Nat)
    (bnds : List Nat) (gpt gemini : Nat → List Seg → Option (List Seg))
    (φ : Seg → α)
    (hg : ∀ bn b fb, gpt bn b = some fb → fb.map φ = b.map φ)
    (hm : ∀ bn b fb, gemini bn b = some fb → fb.map φ = b.map φ)
    (hBK : K + 10 ≤ B) :
    ∀ (fuel i bn : Nat) (acc : List Seg) (c : Nat),
      data.length - i < fuel →
      ((bn = 1 ∧ i = 0 ∧ c = 0) ∨
        (2 ≤ bn ∧ c = i + K ∧ c < data.length) ∨
        (i = data.length ∧ c = data.length)) →
      (fillLoop data B K bnds gpt gemini fuel i bn acc).map φ =
        acc.map φ ++ (data.drop c).map φ := by
  intro fuel
  induction fuel with
  | zero =>
    intro i bn acc c hfuel _
    omega
  | succ fuel ih =>
    intro i bn acc c hfuel hinv
    by_cases hi : i < data.length
    case neg =>
      simp only [fillLoop, if_neg hi]
      rcases hinv with ⟨_, h2, h3⟩ | ⟨_, h2, h3⟩ | ⟨_, h2⟩
      · have hlen : data.length = 0 := by omega
        have hd : data = [] := List.length_eq_zero.mp hlen
        simp [hd, h3]
      · omega
      · rw [h2]
        simp [List.drop_length]
    case pos =>
      simp only [fillLoop, if_pos hi]
      generalize hE :
        adjustEnd bnds i (min (i + B) data.length) data.length = e
      have hle := adjustEnd_le bnds i (min (i + B) data.length) data.length
      have hcs := adjustEnd_cases bnds i (min (i + B) data.length) data.length
      rw [hE] at hle hcs
      have hel : e ≤ data.length := le_trans hle (min_le_right _ _)
      have heiK : e < data.length → i + K < e := by
        intro helt
        rcases hcs with hc1 | ⟨hc1, hc2, hc3⟩ <;> omega
      by_cases hbn : bn = 1
      · rcases hinv with ⟨_, h2, h3⟩ | ⟨h1, _, _⟩ | ⟨h1, _⟩
        rotate_left
        · omega
        · omega
        subst h2 h3
        rw [if_pos hbn]
        by_cases helt : e < data.length
        · rw [if_pos helt]
          have hKe : 0 + K < e := heiK helt
          rw [ih (e - K) (bn + 1)
            (acc ++ providerFill gpt gemini bn ((data.take e).drop 0)) e
            (by omega) (Or.inr (Or.inl (by omega)))]
          rw [List.map_append,
            providerFill_map gpt gemini φ hg hm bn ((data.take e).drop 0)]
          rw [drop_take_drop data 0 e (by omega)]
          simp [List.map_append]
        · rw [if_neg helt]
          have hee : e = data.length := by omega
          rw [ih e (bn + 1)
            (acc ++ providerFill gpt gemini bn ((data.take e).drop 0)) e
            (by omega) (Or.inr (Or.inr (by omega)))]
          rw [List.map_append,
            providerFill_map gpt gemini φ hg hm bn ((data.take e).drop 0)]
          rw [drop_take_drop data 0 e (by omega)]
          simp [List.map_append]
      · rcases hinv with ⟨h1, _, _⟩ | ⟨h1, h2, h3⟩ | ⟨h1, _⟩
        · omega
        rotate_left
        · omega
        rw [if_neg hbn]
        have hce : c ≤ e := by
          by_cases helt : e < data.length
          · have := heiK helt; omega
          · omega
        have hdropmap :
            ((providerFill gpt gemini bn ((data.take e).drop i)).drop K).map φ =
              (((data.take e).drop i).drop K).map φ := by
          rw [List.map_drop, List.map_drop,
            providerFill_map gpt gemini φ hg hm bn ((data.take e).drop i)]
        by_cases helt : e < data.length
        · rw [if_pos helt]
          have hKe : i + K < e := heiK helt
          rw [ih (e - K) (bn + 1)
            (acc ++ (providerFill gpt gemini bn ((data.take e).drop i)).drop K) e
            (by omega) (Or.inr (Or.inl (by omega)))]
          rw [List.map_append, hdropmap, List.drop_drop]
          rw [drop_take_drop data c e hce]
          have hck : i + K = c := h2.symm
          simp [List.map_append, hck]
        · rw [if_neg helt]
          rw [ih e (bn + 1)
            (acc ++ (providerFill gpt gemini bn ((data.take e).drop i)).drop K) e
            (by omega) (Or.inr (Or.inr (by omega)))]
          rw [List.map_append, hdropmap, List.drop_drop]
          rw [drop_take_drop data c e hce]
          have hck : i + K = c := h2.symm
          simp [List.map_append, hck]

/-- Claim C2 (amended).  The diarization loop's merged output contains every
cue exactly once and in order (its index sequence equals the input's, for
any batch size B with K+10 ≤ B, any boundary list, and any
index-preserving providers).  In the concrete scenario of 100 cues with
batch size 20 and overlap 5, batch 2 spans cues 15-34 — it starts at cue 15,
batch-1-end minus overlap, and begins with the last 5 cues of batch 1 — and
the merged output carries, on the overlap cues 15-19, the labels assigned by
batch 1: the later batch's overlap copies are discarded. -/
theorem batch_overlap_merge_spec :
    (∀ (data : List Seg) (B K : Nat) (bnds : List Nat)
        (gpt gemini : Nat → List Seg → Option (List Seg)),
      K + 10 ≤ B →
      (∀ bn b fb, gpt bn b = some fb → fb.map Seg.index = b.map Seg.index) →
      (∀ bn b fb, gemini bn b = some fb → fb.map Seg.index = b.map Seg.index) →
      (fill_speakers_with_gpt_enhanced data B K bnds gpt gemini).map Seg.index =
        data.map Seg.index) ∧
    batchSpans data100 20 5 [0] =
      [(0, 20), (15, 35), (30, 50), (45, 65), (60, 80), (75, 95), (90, 100)] ∧
    ((data100.take 35).drop 15).take 5 = (data100.take 20).drop 15 ∧
    (((fill_speakers_with_gpt_enhanced data100 20 5 [0] gptLab oracleNone).drop 15).take 5).map
        Seg.speaker = ["P1", "P1", "P1", "P1", "P1"] ∧
    (fill_speakers_with_gpt_enhanced data100 20 5 [0] gptLab oracleNone).map
        Seg.index = data100.map Seg.index := by
  refine ⟨?_, by decide, by decide, by decide, by decide⟩
  intro data B K bnds gpt gemini hBK hg hm
  have h := fillLoop_covers data B K bnds gpt gemini Seg.index hg hm hBK
    (data.length + 1) 0 1 [] 0 (by omega) (Or.inl ⟨rfl, rfl, rfl⟩)
  simpa [fill_speakers_with_gpt_enhanced] using h

/-- Witness for C2: the general part applied at the concrete 100-cue
scenario with the labeling provider. -/
theorem batch_overlap_merge_spec_witness :
    (fill_speakers_with_gpt_enhanced data100 20 5 [0] gptLab gptLab).map
      Seg.index = data100.map Seg.index :=
  batch_overlap_merge_spec.1 data100 20 5 [0] gptLab gptLab (by decide)
    (fun bn b fb h => by
      simp only [gptLab, Option.some.injEq] at h
      subst h
      rw [List.map_map]
      rfl)
    (fun bn b fb h => by
      simp only [gptLab, Option.some.injEq] at h
      subst h
      rw [List.map_map]
      rfl)

/-- Counterexample for C2 as stated: batch 2 labels every one of its cues
(including the overlap cues 15-19) with "P2", yet the merged output carries
"P1" — the label batch 1 assigned — on cue 15, not the label batch 2
assigned. -/
theorem overlap_cues_keep_first_batch_label :
    ((gptLab 2 ((data100.take 35).drop 15)).getD []).map Seg.speaker =
      List.replicate 20 "P2" ∧
    ((fill_speakers_with_gpt_enhanced data100 20 5 [0] gptLab oracleNone).get? 15).map
      Seg.speaker = some "P1" ∧
    ("P1" : String) ≠ "P2" := by decide

/-! ## Grouping lemmas for the failure-path claims -/

theorem gcsGo_ne_nil : ∀ (rest : List Seg) (cur : Group),
    gcsGo cur rest ≠ [] := by
  intro rest
  induction rest with
  | nil => intro cur; simp [gcsGo]
  | cons s t ih =>
    intro cur
    simp only [gcsGo]
    split
    · exact ih _
    · simp

theorem gcsGo_speaker_mem : ∀ (rest : List Seg) (cur : Group) (g : Group),
    g ∈ gcsGo cur rest →
    g.speaker = cur.speaker ∨ ∃ x ∈ rest, g.speaker = x.speaker := by
  intro rest
  induction rest with
  | nil =>
    intro cur g hg
    simp only [gcsGo, List.mem_singleton] at hg
    left
    rw [hg]
    rfl
  | cons s t ih =>
    intro cur g hg
    simp only [gcsGo] at hg
    by_cases hsp : s.speaker = cur.speaker
    · rw [if_pos hsp] at hg
      rcases ih _ g hg with h | ⟨x, hx, hxs⟩
      · left; rw [h]
      · right; exact ⟨x, by simp [hx], hxs⟩
    · rw [if_neg hsp] at hg
      rcases List.mem_cons.mp hg with h | h
      · left; rw [h]; rfl
      · rcases ih _ g h with h2 | ⟨x, hx, hxs⟩
        · right; exact ⟨s, by simp, by rw [h2]; rfl⟩
        · right; exact ⟨x, by simp [hx], hxs⟩

theorem group_speaker_mem (l : List Seg) (g : Group)
    (hg : g ∈ group_consecutive_segments l) :
    ∃ x ∈ l, g.speaker = x.speaker := by
  cases l with
  | nil => simp [group_consecutive_segments] at hg
  | cons s rest =>
    rcases gcsGo_speaker_mem rest (initGroup s) g hg with h | ⟨x, hx, hxs⟩
    · exact ⟨s, by simp, by rw [h]; rfl⟩
    · exact ⟨x, by simp [hx], hxs⟩

/-- Claim C3 (amended).  When every provider in the chain fails for every
batch (the oracles always answer `none`), the merged output is exactly the
original unlabeled cue list — the pipeline proceeds rather than blocking —
and every persisted turn built from it carries the non-empty placeholder
label "Unknown Speaker"; when the input is non-empty, output turns do
exist. -/
theorem provider_failure_placeholder_spec :
    (∀ (data : List Seg) (B K : Nat) (bnds : List Nat), K + 10 ≤ B →
      fill_speakers_with_gpt_enhanced data B K bnds oracleNone oracleNone =
        data) ∧
    (∀ (data : List Seg) (B K : Nat) (bnds : List Nat), K + 10 ≤ B →
      (∀ x ∈ data, x.speaker = "") →
      ∀ r ∈ create_speakers_table
          (fill_speakers_with_gpt_enhanced data B K bnds oracleNone oracleNone) 1,
        r.speaker = "Unknown Speaker" ∧ r.speaker ≠ "") ∧
    (∀ (data : List Seg) (B K : Nat) (bnds : List Nat), K + 10 ≤ B →
      data ≠ [] →
      create_speakers_table
        (fill_speakers_with_gpt_enhanced data B K bnds oracleNone oracleNone) 1 ≠
        []) := by
  have hid : ∀ (data : List Seg) (B K : Nat) (bnds : List Nat), K + 10 ≤ B →
      fill_speakers_with_gpt_enhanced data B K bnds oracleNone oracleNone =
        data := by
    intro data B K bnds hBK
    have h := fillLoop_covers data B K bnds oracleNone oracleNone id
      (fun bn b fb hsome => by simp [oracleNone] at hsome)
      (fun bn b fb hsome => by simp [oracleNone] at hsome) hBK
      (data.length + 1) 0 1 [] 0 (by omega) (Or.inl ⟨rfl, rfl, rfl⟩)
    simpa [fill_speakers_with_gpt_enhanced, List.map_id] using h
  refine ⟨hid, ?_, ?_⟩
  · intro data B K bnds hBK hemp r hr
    rw [hid data B K bnds hBK] at hr
    unfold create_speakers_table at hr
    simp only [List.mem_map] at hr
    obtain ⟨g, hg, hrow⟩ := hr
    obtain ⟨x, hx, hxs⟩ := group_speaker_mem data g hg
    have hgs : g.speaker = "" := by rw [hxs, hemp x hx]
    have hp : parse_speaker_info g.speaker = ("Unknown Speaker", "Unknown") := by
      rw [hgs]
      decide
    rw [← hrow]
    simp [hp]
  · intro data B K bnds hBK hne
    rw [hid data B K bnds hBK]
    unfold create_speakers_table
    simp only [ne_eq, List.map_eq_nil_iff]
    cases data with
    | nil => exact absurd rfl hne
    | cons s rest => exact gcsGo_ne_nil rest (initGroup s)

/-- Witness for C3: the all-failing chain on a single unlabeled cue yields
the cue unchanged, and its persisted turn carries the placeholder. -/
theorem provider_failure_placeholder_spec_witness :
    fill_speakers_with_gpt_enhanced [cueHello] 200 5 [0] oracleNone oracleNone =
      [cueHello] ∧
    rowHello.speaker = "Unknown Speaker" ∧ rowHello.speaker ≠ "" :=
  ⟨provider_failure_placeholder_spec.1 [cueHello] 200 5 [0] (by decide),
   provider_failure_placeholder_spec.2.1 [cueHello] 200 5 [0] (by decide)
     (by decide) rowHello (List.Mem.head _)⟩

/-- Counterexample for C3 as stated ("every cue ends the pipeline with a
non-empty speaker label"): a provider that answers with the raw label
",Ministry" makes the pipeline persist an EMPTY speaker name, because
pattern 3 of `parse_speaker_info` splits at the leading comma and returns
the empty first part as the name. -/
theorem nonempty_label_can_resolve_empty :
    (fill_speakers_with_gpt_enhanced [cueHello] 200 5 [0] badLabeler
        oracleNone).map Seg.speaker = [",Ministry"] ∧
    (create_speakers_table
        (fill_speakers_with_gpt_enhanced [cueHello] 200 5 [0] badLabeler
          oracleNone) 1).map Row.speaker = [""] := by decide

/-! ## Retry-wrapper lemmas -/

theorem retryRemaining_congr (o1 o2 : Nat → AttemptRes) (batch : List Seg) :
    ∀ (r k : Nat), (∀ j, j < r → o1 (k + j) = o2 (k + j)) →
      retryRemaining o1 batch r k = retryRemaining o2 batch r k := by
  intro r
  induction r with
  | zero => intro k _; rfl
  | succ r ih =>
    intro k h
    have h0 : o1 k = o2 k := by simpa using h 0 (by omega)
    have hrec : retryRemaining o1 batch r (k + 1) =
        retryRemaining o2 batch r (k + 1) :=
      ih (k + 1) (fun j hj => by
        have hj1 := h (j + 1) (by omega)
        simpa [Nat.add_assoc, Nat.add_comm, Nat.add_left_comm] using hj1)
    simp only [retryRemaining, h0, hrec]

/-- Claim C4 (amended).  Validation of a provider batch response: only a
segment-count mismatch (possible only in the full-JSON dict format) counts
as a validation failure; it is retried with the exponential-backoff
schedule and, after the MAX_RETRIES attempts are exhausted, the wrapper
returns `none` so the caller falls through to the next provider.  An
unparseable response is NOT a failure: the wrapper substitutes the original
batch and accepts it on the spot, and accepted responses are only
guaranteed to match the input's segment count — empty speaker labels are
merely warned about, never retried. -/
theorem batch_validation_retry_spec :
    (∀ (oracle : Nat → AttemptRes) (batch : List Seg),
      (∀ k, k < MAX_RETRIES →
        ∃ segs, oracle k = .ok (.dicts segs) ∧ segs.length ≠ batch.length) →
      gpt_retry oracle batch =
        (none, [min (BASE_DELAY * 2 ^ 0) MAX_DELAY,
                min (BASE_DELAY * 2 ^ 1) MAX_DELAY])) ∧
    (∀ (oracle : Nat → AttemptRes) (batch : List Seg),
      oracle 0 = .ok .unparseable →
      gpt_retry oracle batch = (some batch, [])) ∧
    (∀ (resp : LLMResp) (batch filled : List Seg),
      gptValidate resp batch = some filled →
      filled.length = batch.length) := by
  refine ⟨?_, ?_, ?_⟩
  · intro oracle batch h
    obtain ⟨s0, h0, hl0⟩ := h 0 (by decide)
    obtain ⟨s1, h1, hl1⟩ := h 1 (by decide)
    obtain ⟨s2, h2, hl2⟩ := h 2 (by decide)
    show retryRemaining oracle batch 3 0 = _
    simp only [retryRemaining, h0, h1, h2, gptValidate,
      decompress_batch_response, if_neg hl0, if_neg hl1, if_neg hl2,
      retryDelay]
    norm_num
  · intro oracle batch h0
    show retryRemaining oracle batch 3 0 = _
    simp [retryRemaining, h0, gptValidate, decompress_batch_response]
  · intro resp batch filled h
    unfold gptValidate at h
    by_cases hl : (decompress_batch_response resp batch).length = batch.length
    · rw [if_pos hl] at h
      simp only [Option.some.injEq] at h
      rw [← h]
      exact hl
    · rw [if_neg hl] at h
      cases h

/-- Witness for C4: the mismatching oracle exhausts its three attempts with
backoff delays 1 and 2 and returns a failure; the unparseable oracle is
accepted immediately. -/
theorem batch_validation_retry_spec_witness :
    gpt_retry oracleMism [cueHello] =
      (none, [min (BASE_DELAY * 2 ^ 0) MAX_DELAY,
              min (BASE_DELAY * 2 ^ 1) MAX_DELAY]) ∧
    gpt_retry (fun _ => AttemptRes.ok LLMResp.unparseable) [cueHello] =
      (some [cueHello], []) :=
  ⟨batch_validation_retry_spec.1 oracleMism [cueHello]
    (fun k _ => ⟨[cueHello, cueHello], rfl, by decide⟩),
   batch_validation_retry_spec.2.1 (fun _ => AttemptRes.ok LLMResp.unparseable)
    [cueHello] rfl⟩

/-- Counterexample for C4 as stated: an unparseable response is accepted on
the very first attempt (no retry, no fall-through) — the returned batch is
the original one, whose only cue still carries an empty speaker label. -/
theorem unparseable_response_accepted :
    gpt_retry (fun _ => AttemptRes.ok LLMResp.unparseable) [cueHello] =
      (some [cueHello], []) ∧
    cueHello.speaker = "" := by decide

/-- Claim C7 (amended).  The retry wrapper makes at most MAX_RETRIES = 3
attempts (its result depends only on the first three oracle answers); after
a non-rate-limited failure on attempt k it sleeps
`min (BASE_DELAY * 2^k) MAX_DELAY` and does not sleep after the last
attempt, returning `none` instead of raising; after a rate-limited failure
carrying a server Retry-After value `t` it sleeps `min (t + 2) MAX_DELAY` —
the server value plus the source's 2-second buffer, capped — instead of the
exponential backoff. -/
theorem retry_backoff_spec :
    (∀ (o1 o2 : Nat → AttemptRes) (batch : List Seg),
      (∀ k, k < MAX_RETRIES → o1 k = o2 k) →
      gpt_retry o1 batch = gpt_retry o2 batch) ∧
    (∀ (oracle : Nat → AttemptRes) (batch : List Seg),
      (∀ k, k < MAX_RETRIES → oracle k = .err false none) →
      gpt_retry oracle batch =
        (none, [min (BASE_DELAY * 2 ^ 0) MAX_DELAY,
                min (BASE_DELAY * 2 ^ 1) MAX_DELAY])) ∧
    (∀ (oracle : Nat → AttemptRes) (batch : List Seg) (t : Nat),
      oracle 0 = .err true (some t) →
      ∃ rest, (gpt_retry oracle batch).2 =
        min (t + 2) MAX_DELAY :: rest) := by
  refine ⟨?_, ?_, ?_⟩
  · intro o1 o2 batch h
    exact retryRemaining_congr o1 o2 batch MAX_RETRIES 0
      (fun j hj => by simpa using h j hj)
  · intro oracle batch h
    have h0 := h 0 (by decide)
    have h1 := h 1 (by decide)
    have h2 := h 2 (by decide)
    show retryRemaining oracle batch 3 0 = _
    simp [retryRemaining, h0, h1, h2, retryDelay]
  · intro oracle batch t h0
    show ∃ rest, (retryRemaining oracle batch 3 0).2 = _
    simp only [retryRemaining, h0, retryDelay]
    exact ⟨_, rfl⟩

/-- Witness for C7: concrete always-failing oracles realize the backoff
schedule [1, 2] and the buffered Retry-After delay. -/
theorem retry_backoff_spec_witness :
    gpt_retry (fun _ => AttemptRes.err false none) [] =
      (none, [min (BASE_DELAY * 2 ^ 0) MAX_DELAY,
              min (BASE_DELAY * 2 ^ 1) MAX_DELAY]) ∧
    (∃ rest, (gpt_retry (fun _ => AttemptRes.err true (some 7)) []).2 =
      min (7 + 2) MAX_DELAY :: rest) :=
  ⟨retry_backoff_spec.2.1 (fun _ => AttemptRes.err false none) []
    (fun _ _ => rfl),
   retry_backoff_spec.2.2 (fun _ => AttemptRes.err true (some 7)) [] 7 rfl⟩

/-- Counterexample for C7 as stated: with a server Retry-After of 10
seconds, the wrapper sleeps 12 seconds (the source adds a 2-second buffer
before capping), not the server-provided duration capped at MAX_DELAY. -/
theorem retry_after_buffered_delay :
    (gpt_retry (fun _ => AttemptRes.err true (some 10)) []).2.head? =
      some 12 ∧
    (12 : Nat) ≠ min 10 MAX_DELAY := by decide

/-! ## Pattern-priority lemmas -/

theorem firstSome_eq_none {α β : Type} :
    ∀ (fs : List (α → Option β)) (a : α),
      (∀ f ∈ fs, f a = none) → firstSome fs a = none := by
  intro fs
  induction fs with
  | nil => intro a _; rfl
  | cons f fs ih =>
    intro a h
    have h0 : f a = none := h f (by simp)
    simp only [firstSome, h0]
    exact ih a (fun g hg => h g (by simp [hg]))

theorem firstSome_of_first_match {α β : Type} :
    ∀ (fs : List (α → Option β)) (a : α) (k : Nat) (hk : k < fs.length)
      (r : β),
      (∀ (j : Nat) (hj : j < fs.length), j < k → fs.get ⟨j, hj⟩ a = none) →
      fs.get ⟨k, hk⟩ a = some r →
      firstSome fs a = some r := by
  intro fs
  induction fs with
  | nil =>
    intro a k hk
    exact absurd hk (by simp)
  | cons f fs ih =>
    intro a k hk r hnone hsome
    cases k with
    | zero =>
      simp only [List.get] at hsome
      simp only [firstSome, hsome]
    | succ k =>
      have h0 := hnone 0 (by simp) (by omega)
      simp only [List.get] at h0
      simp only [firstSome, h0]
      apply ih a k (by simpa using hk) r
      · intro j hj hjk
        have hj1 := hnone (j + 1) (by simpa using Nat.succ_lt_succ hj)
          (by omega)
        simpa [List.get] using hj1
      · simpa [List.get] using hsome

/-- Claim C9.  Raw-label resolution is a pure function trying its eleven
text patterns in a fixed priority order with the first match winning; the
label "Dr. Jane Smith, Minister of Communications, Kenya" misses patterns 1
and 2 and resolves via the comma-split pattern 3 (its remainder contains
the country keyword "Kenya") to name "Dr. Jane Smith" with a representing
field containing "Kenya"; and for any stripped label on which no pattern
matches, the representing field is exactly "Not specified". -/
theorem speaker_resolution_priority :
    (parse_speaker_info "Dr. Jane Smith, Minister of Communications, Kenya" =
        ("Dr. Jane Smith", "Minister of Communications,  Kenya") ∧
      hasSubstr "Minister of Communications,  Kenya".data "Kenya".data =
        true ∧
      pattern1
        (trimL "Dr. Jane Smith, Minister of Communications, Kenya".data) =
        none ∧
      pattern2
        (trimL "Dr. Jane Smith, Minister of Communications, Kenya".data) =
        none ∧
      pattern3
        (trimL "Dr. Jane Smith, Minister of Communications, Kenya".data) =
        some ("Dr. Jane Smith", "Minister of Communications,  Kenya")) ∧
    (∀ (cs : List Char) (k : Fin patternList.length) (r : String × String),
      (∀ j : Fin patternList.length, j.val < k.val →
        patternList.get j cs = none) →
      patternList.get k cs = some r →
      firstSome patternList cs = some r) ∧
    (∀ s : String, ¬ s.data.all Char.isWhitespace = true →
      (∀ f ∈ patternList, f (trimL s.data) = none) →
      (parse_speaker_info s).2 = "Not specified") := by
  refine ⟨by decide, ?_, ?_⟩
  · intro cs k r hnone hsome
    exact firstSome_of_first_match patternList cs k.val k.isLt r
      (fun j hj hjk => hnone ⟨j, hj⟩ hjk) hsome
  · intro s hblank hf
    simp only [parse_speaker_info, if_neg hblank]
    rw [firstSome_eq_none patternList (trimL s.data) hf]

/-- Witness for C9: the priority rule applied at the scenario label (pattern
3, index 2, is the first to match), and the no-match default applied at the
label "zzz". -/
theorem speaker_resolution_priority_witness :
    firstSome patternList
      (trimL "Dr. Jane Smith, Minister of Communications, Kenya".data) =
      some ("Dr. Jane Smith", "Minister of Communications,  Kenya") ∧
    (parse_speaker_info "zzz").2 = "Not specified" :=
  ⟨speaker_resolution_priority.2.1
    (trimL "Dr. Jane Smith, Minister of Communications, Kenya".data)
    ⟨2, by decide⟩ ("Dr. Jane Smith", "Minister of Communications,  Kenya")
    (by decide) (by decide),
   speaker_resolution_priority.2.2 "zzz" (by decide) (by decide)⟩

/-- Claim C10.  An empty or whitespace-only raw speaker label resolves to
name "Unknown Speaker" with representing "Unknown" (not "Not specified"),
and every turn assembled from cues whose diarization produced no label is
persisted with exactly that placeholder pair. -/
theorem blank_label_placeholder :
    (∀ s : String, s.data.all Char.isWhitespace = true →
      parse_speaker_info s = ("Unknown Speaker", "Unknown")) ∧
    (∀ l : List Seg, (∀ x ∈ l, x.speaker = "") →
      ∀ r ∈ create_speakers_table l 1,
        r.speaker = "Unknown Speaker" ∧ r.representing = "Unknown") := by
  constructor
  · intro s h
    unfold parse_speaker_info
    rw [if_pos h]
  · intro l hemp r hr
    unfold create_speakers_table at hr
    simp only [List.mem_map] at hr
    obtain ⟨g, hg, hrow⟩ := hr
    obtain ⟨x, hx, hxs⟩ := group_speaker_mem l g hg
    have hgs : g.speaker = "" := by rw [hxs, hemp x hx]
    have hp : parse_speaker_info g.speaker = ("Unknown Speaker", "Unknown") := by
      rw [hgs]
      decide
    rw [← hrow]
    simp [hp]

/-- Witness for C10: the whitespace-only label and the one-cue unlabeled
table. -/
theorem blank_label_placeholder_witness :
    parse_speaker_info "   " = ("Unknown Speaker", "Unknown") ∧
    (rowHello.speaker = "Unknown Speaker" ∧
      rowHello.representing = "Unknown") :=
  ⟨blank_label_placeholder.1 "   " (by decide),
   blank_label_placeholder.2 [cueHello] (by decide) rowHello
    (List.Mem.head _)⟩

end ITU
